import Mathlib

/-!
Fixed-point arithmetic of `threads/fixed_point.h` (Pintos)

A shallow embedding of the 17.14 fixed-point primitives.  A C `int` is a
mathematical integer in the signed 32-bit range and an `int64_t` one in the
signed 64-bit range; an arithmetic result that leaves the range of its type is
folded back into it (two's complement).  Division is C's `/`, which truncates
toward zero (`Int.tdiv`) and has no result for a zero divisor or for the
quotient `MIN / -1`.
-/

namespace FixedPoint

/-! ## Machine integers -/

/-- Two's-complement folding of an integer into the signed 32-bit range. -/
def wrap32 (v : Int) : Int := (v + 2147483648) % 4294967296 - 2147483648

/-- Two's-complement folding of an integer into the signed 64-bit range. -/
def wrap64 (v : Int) : Int :=
  (v + 9223372036854775808) % 18446744073709551616 - 9223372036854775808

/-- The values of a C `int`. -/
def isInt32 (v : Int) : Prop := -2147483648 ≤ v ∧ v ≤ 2147483647

/-- The values of an `int64_t`. -/
def isInt64 (v : Int) : Prop := -9223372036854775808 ≤ v ∧ v ≤ 9223372036854775807

instance (v : Int) : Decidable (isInt32 v) := by
  unfold isInt32
  exact inferInstance

instance (v : Int) : Decidable (isInt64 v) := by
  unfold isInt64
  exact inferInstance

/-- C division `a / b` in a signed type whose least value is `lo`: truncating,
and without a result when `b` is zero or the quotient is `lo / -1`. -/
def sdiv (lo a b : Int) : Option Int :=
  if b = 0 ∨ (a = lo ∧ b = -1) then none else some (Int.tdiv a b)

/-! ## The header -/

/-- The scale constant, `#define f (1<<14)`. -/
def f : Int := ((1 <<< 14 : Nat) : Int)

/-- The macro `#define INT_MAX ((1<<31)-1)`, evaluated in `int`. -/
def INT_MAX : Int := wrap32 (wrap32 ((1 <<< 31 : Nat) : Int) - 1)

/-- The macro `#define INT_MIN (-(1<<31))`, evaluated in `int`. -/
def INT_MIN : Int := wrap32 (-(wrap32 ((1 <<< 31 : Nat) : Int)))

/-- The function `int_to_fp`: `return n*f;`. -/
def int_to_fp (n : Int) : Int := wrap32 (n * f)

/-- The function `fp_to_int`: `return x/f;`. -/
def fp_to_int (x : Int) : Int := Int.tdiv x f

/-- The function `fp_to_int_round`: `return (x>=0)?(x+f/2)/f : (x-f/2)/f;`. -/
def fp_to_int_round (x : Int) : Int :=
  if x ≥ 0 then Int.tdiv (wrap32 (x + Int.tdiv f 2)) f
  else Int.tdiv (wrap32 (x - Int.tdiv f 2)) f

/-- The function `add_fp`: `return x+y;`. -/
def add_fp (x y : Int) : Int := wrap32 (x + y)

/-- The function `add_mixed`: `return x+n*f;`. -/
def add_mixed (x n : Int) : Int := wrap32 (x + wrap32 (n * f))

/-- The function `sub_fp`: `return x-y;`. -/
def sub_fp (x y : Int) : Int := wrap32 (x - y)

/-- The function `sub_mixed`: `return x-n*f;`. -/
def sub_mixed (x n : Int) : Int := wrap32 (x - wrap32 (n * f))

/-- The function `mult_fp`: `return ((int64_t)x)*y/f;`, the product and the
quotient taken in `int64_t` and the result converted back to `int`. -/
def mult_fp (x y : Int) : Int := wrap32 (Int.tdiv (wrap64 (x * y)) f)

/-- The function `mult_mixed`: `return x*n;`. -/
def mult_mixed (x n : Int) : Int := wrap32 (x * n)

/-- The function `div_fp`: `return ((int64_t)x)*f/y;`, the product and the
quotient taken in `int64_t` and the result converted back to `int`. -/
def div_fp (x y : Int) : Option Int :=
  (sdiv (-9223372036854775808) (wrap64 (x * f)) y).map wrap32

/-- The function `div_mixed`: `return x/n;`. -/
def div_mixed (x n : Int) : Option Int := sdiv (-2147483648) x n

/-- The variant of `mult_fp` the design rationale warns against, written from
the specification's words ("native-width arithmetic throughout"): the body
`return x*y/f;` with the product taken in `int` instead of `int64_t`.  It is
not part of the header; it is what `mult_fp` is compared with. -/
def mult_fp_native (x y : Int) : Int := Int.tdiv (wrap32 (x * y)) f

/-! ## Basic facts -/

theorem f_eq : f = 16384 := rfl

theorem INT_MAX_eq : INT_MAX = 2147483647 := by decide

theorem INT_MIN_eq : INT_MIN = -2147483648 := by decide

theorem wrap32_of_isInt32 {v : Int} (h : isInt32 v) : wrap32 v = v := by
  unfold isInt32 at h
  unfold wrap32
  omega

theorem wrap64_of_isInt64 {v : Int} (h : isInt64 v) : wrap64 v = v := by
  unfold isInt64 at h
  unfold wrap64
  omega

theorem isInt32_wrap32 (v : Int) : isInt32 (wrap32 v) := by
  unfold isInt32 wrap32
  omega

/-- Truncating division by the scale, on a non-negative dividend. -/
theorem tdiv_scale_of_nonneg {v : Int} (h : 0 ≤ v) : Int.tdiv v 16384 = v / 16384 :=
  Int.tdiv_eq_ediv h (by decide)

/-- Truncating division by the scale, on a non-positive dividend. -/
theorem tdiv_scale_of_nonpos {v : Int} (h : v ≤ 0) :
    Int.tdiv v 16384 = -((-v) / 16384) := by
  have h1 : Int.tdiv (-v) 16384 = (-v) / 16384 :=
    Int.tdiv_eq_ediv (by omega) (by decide)
  rw [Int.neg_tdiv] at h1
  omega

/-- A product of two `int` values stays within `int64_t`. -/
theorem isInt64_mul {x y : Int} (hx : isInt32 x) (hy : isInt32 y) : isInt64 (x * y) := by
  unfold isInt32 at hx hy
  have hax : |x| ≤ 2147483648 := abs_le.mpr ⟨by omega, by omega⟩
  have hay : |y| ≤ 2147483648 := abs_le.mpr ⟨by omega, by omega⟩
  have hm : |x * y| ≤ 2147483648 * 2147483648 := by
    rw [abs_mul]
    exact mul_le_mul hax hay (abs_nonneg y) (by decide)
  have hb := abs_le.mp hm
  unfold isInt64
  constructor
  · omega
  · omega

/-- The widened product `x*16384` of `div_fp` stays within `int64_t`. -/
theorem isInt64_mul_scale {x : Int} (hx : isInt32 x) : isInt64 (x * 16384) :=
  isInt64_mul hx (by decide)

/-- The result of `div_fp` when the truncated quotient is an `int`. -/
theorem div_fp_of_isInt32 {x y : Int} (hx : isInt32 x) (hy0 : y ≠ 0)
    (hq : isInt32 (Int.tdiv (x * 16384) y)) :
    div_fp x y = some (Int.tdiv (x * 16384) y) := by
  have hlo : ¬ (y = 0 ∨ (x * 16384 = -9223372036854775808 ∧ y = -1)) := by
    unfold isInt32 at hx
    omega
  unfold div_fp sdiv
  rw [f_eq, wrap64_of_isInt64 (isInt64_mul_scale hx), if_neg hlo, Option.map_some',
    wrap32_of_isInt32 hq]

/-! ## Multiplication and division through the widened intermediate -/

/-- C1: for signed 32-bit `x` and `y` the exact product `x*y` fits in a signed
64-bit integer, and whenever the quotient `(x*y)/16384` truncated toward zero
is a signed 32-bit value, `mult_fp x y` returns exactly that quotient. -/
theorem mult_fp_exact (x y : Int) (hx : isInt32 x) (hy : isInt32 y) :
    isInt64 (x * y) ∧
      (isInt32 (Int.tdiv (x * y) 16384) → mult_fp x y = Int.tdiv (x * y) 16384) := by
  have h64 := isInt64_mul hx hy
  refine ⟨h64, fun hq => ?_⟩
  unfold mult_fp
  rw [wrap64_of_isInt64 h64, f_eq, wrap32_of_isInt32 hq]

theorem mult_fp_exact_witness :
    isInt32 49152 ∧ isInt32 (-40960) ∧ isInt32 (Int.tdiv (49152 * (-40960)) 16384) ∧
      isInt64 (49152 * (-40960)) ∧
      mult_fp 49152 (-40960) = Int.tdiv (49152 * (-40960)) 16384 :=
  ⟨by decide, by decide, by decide,
    (mult_fp_exact 49152 (-40960) (by decide) (by decide)).1,
    (mult_fp_exact 49152 (-40960) (by decide) (by decide)).2 (by decide)⟩

/-- C2: for signed 32-bit `x` and signed 32-bit `y ≠ 0` the widened
intermediate `x*16384` fits in a signed 64-bit integer, and whenever the
quotient `(x*16384)/y` truncated toward zero is a signed 32-bit value,
`div_fp x y` returns exactly that quotient. -/
theorem div_fp_exact (x y : Int) (hx : isInt32 x) (_hy : isInt32 y) (hy0 : y ≠ 0) :
    isInt64 (x * 16384) ∧
      (isInt32 (Int.tdiv (x * 16384) y) →
        div_fp x y = some (Int.tdiv (x * 16384) y)) := by
  exact ⟨isInt64_mul_scale hx, fun hq => div_fp_of_isInt32 hx hy0 hq⟩

theorem div_fp_exact_witness :
    isInt32 163840 ∧ isInt32 (-65536) ∧ (-65536 : Int) ≠ 0 ∧
      isInt32 (Int.tdiv (163840 * 16384) (-65536)) ∧ isInt64 (163840 * 16384) ∧
      div_fp 163840 (-65536) = some (Int.tdiv (163840 * 16384) (-65536)) :=
  ⟨by decide, by decide, by decide, by decide,
    (div_fp_exact 163840 (-65536) (by decide) (by decide) (by decide)).1,
    (div_fp_exact 163840 (-65536) (by decide) (by decide) (by decide)).2 (by decide)⟩

/-! ## Conversions -/

theorem half_scale : Int.tdiv f 2 = 8192 := by decide

/-- The rounding conversion on a non-negative value whose biased sum stays in `int`. -/
theorem fp_to_int_round_of_nonneg {x : Int} (h0 : 0 ≤ x) (h1 : x ≤ 2147475455) :
    fp_to_int_round x = (x + 8192) / 16384 := by
  unfold fp_to_int_round
  have hw : wrap32 (x + 8192) = x + 8192 :=
    wrap32_of_isInt32 ⟨by omega, by omega⟩
  rw [if_pos (show x ≥ 0 from h0), half_scale, hw, f_eq]
  exact tdiv_scale_of_nonneg (by omega)

/-- The rounding conversion on a negative value whose biased difference stays in `int`. -/
theorem fp_to_int_round_of_neg {x : Int} (h0 : x < 0) (h1 : -2147475456 ≤ x) :
    fp_to_int_round x = -((8192 - x) / 16384) := by
  unfold fp_to_int_round
  have hw : wrap32 (x - 8192) = x - 8192 :=
    wrap32_of_isInt32 ⟨by omega, by omega⟩
  rw [if_neg (show ¬ x ≥ 0 by omega), half_scale, hw, f_eq,
    tdiv_scale_of_nonpos (show x - 8192 ≤ 0 by omega)]
  have he : -(x - 8192) = 8192 - x := by omega
  rw [he]

/-- C3 (as the code has it): for a signed 32-bit `x` with
`-2^31 + 8192 ≤ x ≤ 2^31 - 1 - 8192`, so that the bias `x ± 8192` stays in 32
bits, `r = fp_to_int_round x` is the integer nearest to `x/16384`:
`|16384*r - x| ≤ 8192`, and when `x` is exactly halfway between two integers
(`|x| mod 16384 = 8192`) `r` is the neighbour of larger magnitude,
`16384*|r| = |x| + 8192`. -/
theorem fp_to_int_round_nearest (x : Int)
    (hlo : -2147483648 + 8192 ≤ x) (hhi : x ≤ 2147483647 - 8192) :
    |16384 * fp_to_int_round x - x| ≤ 8192 ∧
      (|x| % 16384 = 8192 → 16384 * |fp_to_int_round x| = |x| + 8192) := by
  by_cases h0 : 0 ≤ x
  · rw [fp_to_int_round_of_nonneg h0 (by omega), abs_of_nonneg h0,
      abs_of_nonneg (show (0 : Int) ≤ (x + 8192) / 16384 by omega)]
    exact ⟨abs_le.mpr ⟨by omega, by omega⟩, fun h => by omega⟩
  · have hneg : x < 0 := by omega
    rw [fp_to_int_round_of_neg hneg (by omega), abs_of_neg hneg,
      abs_of_nonpos (show -((8192 - x) / 16384) ≤ (0 : Int) by omega)]
    exact ⟨abs_le.mpr ⟨by omega, by omega⟩, fun h => by omega⟩

theorem fp_to_int_round_nearest_witness :
    (-2147483648 + 8192 ≤ (-57344 : Int)) ∧ ((-57344 : Int) ≤ 2147483647 - 8192) ∧
      |(-57344 : Int)| % 16384 = 8192 ∧
      |16384 * fp_to_int_round (-57344) - (-57344)| ≤ 8192 ∧
      16384 * |fp_to_int_round (-57344)| = |(-57344 : Int)| + 8192 :=
  ⟨by decide, by decide, by decide,
    (fp_to_int_round_nearest (-57344) (by decide) (by decide)).1,
    (fp_to_int_round_nearest (-57344) (by decide) (by decide)).2 (by decide)⟩

/-- Outside that range the bias leaves 32 bits and the result is off by far
more than a half: the range of `fp_to_int_round_nearest` cannot be widened. -/
theorem fp_to_int_round_off_range (x : Int) (hx : isInt32 x)
    (h : x < -2147483648 + 8192 ∨ 2147483647 - 8192 < x) :
    ¬ (|16384 * fp_to_int_round x - x| ≤ 8192) := by
  unfold isInt32 at hx
  intro hle
  have hb := abs_le.mp hle
  unfold fp_to_int_round at hb
  rw [half_scale, f_eq] at hb
  rcases h with h | h
  · have hw : wrap32 (x - 8192) = x - 8192 + 4294967296 := by
      unfold wrap32
      omega
    rw [if_neg (show ¬ x ≥ 0 by omega), hw,
      tdiv_scale_of_nonneg (show 0 ≤ x - 8192 + 4294967296 by omega)] at hb
    omega
  · have hw : wrap32 (x + 8192) = x + 8192 - 4294967296 := by
      unfold wrap32
      omega
    rw [if_pos (show x ≥ 0 by omega), hw,
      tdiv_scale_of_nonpos (show x + 8192 - 4294967296 ≤ 0 by omega)] at hb
    omega

/-- C3 (as stated) fails at the largest `int`: `x + 8192` leaves the 32-bit
range, the folded sum is negative, and the result `-131071` is nowhere near
`x/16384`. -/
theorem fp_to_int_round_nearest_fails :
    isInt32 2147483647 ∧ fp_to_int_round 2147483647 = -131071 ∧
      ¬ (|16384 * fp_to_int_round 2147483647 - 2147483647| ≤ 8192) := by
  decide

/-- C4: for a signed 32-bit `x`, `r = fp_to_int x` is `x/16384` truncated
toward zero: `|16384*r| ≤ |x| < 16384*(|r|+1)` and `r` is zero or has the sign
of `x`; `fp_to_int 49152 = 3` and `fp_to_int (-1) = 0`. -/
theorem fp_to_int_truncates (x : Int) (_hx : isInt32 x) :
    |16384 * fp_to_int x| ≤ |x| ∧ |x| < 16384 * (|fp_to_int x| + 1) ∧
      (fp_to_int x = 0 ∨ Int.sign (fp_to_int x) = Int.sign x) ∧
      fp_to_int 49152 = 3 ∧ fp_to_int (-1) = 0 := by
  refine ⟨?_, ?_, ?_, by decide, by decide⟩
  all_goals unfold fp_to_int
  all_goals rw [f_eq]
  all_goals by_cases h0 : 0 ≤ x
  · rw [tdiv_scale_of_nonneg h0, abs_of_nonneg h0,
      abs_of_nonneg (show (0 : Int) ≤ 16384 * (x / 16384) by omega)]
    omega
  · rw [tdiv_scale_of_nonpos (by omega), abs_of_neg (show x < 0 by omega),
      abs_of_nonpos (show 16384 * -(-x / 16384) ≤ (0 : Int) by omega)]
    omega
  · rw [tdiv_scale_of_nonneg h0, abs_of_nonneg h0,
      abs_of_nonneg (show (0 : Int) ≤ x / 16384 by omega)]
    omega
  · rw [tdiv_scale_of_nonpos (by omega), abs_of_neg (show x < 0 by omega),
      abs_of_nonpos (show -(-x / 16384) ≤ (0 : Int) by omega)]
    omega
  · rw [tdiv_scale_of_nonneg h0]
    by_cases hz : x / 16384 = 0
    · exact Or.inl hz
    · right
      rw [Int.sign_eq_one_of_pos (show 0 < x / 16384 by omega),
        Int.sign_eq_one_of_pos (show 0 < x by omega)]
  · rw [tdiv_scale_of_nonpos (by omega)]
    by_cases hz : -(-x / 16384) = 0
    · exact Or.inl hz
    · right
      rw [Int.sign_eq_neg_one_of_neg (show -(-x / 16384) < 0 by omega),
        Int.sign_eq_neg_one_of_neg (show x < 0 by omega)]

theorem fp_to_int_truncates_witness :
    isInt32 (-49153) ∧
      |16384 * fp_to_int (-49153)| ≤ |(-49153 : Int)| ∧
      |(-49153 : Int)| < 16384 * (|fp_to_int (-49153)| + 1) ∧
      (fp_to_int (-49153) = 0 ∨ Int.sign (fp_to_int (-49153)) = Int.sign (-49153)) ∧
      fp_to_int 49152 = 3 ∧ fp_to_int (-1) = 0 :=
  ⟨by decide, fp_to_int_truncates (-49153) (by decide)⟩

/-- Promotion of an integer of the 17-bit range is the exact product. -/
theorem int_to_fp_of_small {n : Int} (hlo : -131072 ≤ n) (hhi : n ≤ 131071) :
    int_to_fp n = n * 16384 := by
  unfold int_to_fp
  rw [f_eq]
  exact wrap32_of_isInt32 ⟨by omega, by omega⟩

/-- C5: for every integer `n` with `-2^17 ≤ n ≤ 2^17 - 1`, and these are
exactly the `n` whose product `n*16384` fits in a signed 32-bit integer,
`int_to_fp n` is the mathematical product `n*16384`; `int_to_fp 3 = 49152`. -/
theorem int_to_fp_exact (n : Int) (hlo : -131072 ≤ n) (hhi : n ≤ 131071) :
    isInt32 (n * 16384) ∧ int_to_fp n = n * 16384 ∧
      (∀ m : Int, isInt32 (m * 16384) → -131072 ≤ m ∧ m ≤ 131071) ∧
      int_to_fp 3 = 49152 := by
  refine ⟨⟨by omega, by omega⟩, int_to_fp_of_small hlo hhi, ?_, by decide⟩
  intro m hm
  unfold isInt32 at hm
  omega

theorem int_to_fp_exact_witness :
    (-131072 ≤ (-131072 : Int)) ∧ ((-131072 : Int) ≤ 131071) ∧
      isInt32 (-131072 * 16384) ∧ int_to_fp (-131072) = -131072 * 16384 :=
  ⟨by decide, by decide,
    (int_to_fp_exact (-131072) (by decide) (by decide)).1,
    (int_to_fp_exact (-131072) (by decide) (by decide)).2.1⟩

/-- C6: round trip, `fp_to_int (int_to_fp n) = n` for `|n| < 2^17`. -/
theorem fp_to_int_int_to_fp (n : Int) (h : |n| < 131072) :
    fp_to_int (int_to_fp n) = n := by
  have hb := abs_lt.mp h
  rw [int_to_fp_of_small (by omega) (by omega)]
  unfold fp_to_int
  rw [f_eq]
  exact Int.mul_tdiv_cancel n (by decide)

theorem fp_to_int_int_to_fp_witness :
    |(-131071 : Int)| < 131072 ∧ fp_to_int (int_to_fp (-131071)) = -131071 :=
  ⟨by decide, fp_to_int_int_to_fp (-131071) (by decide)⟩

/-- C7: rounding round trip, `fp_to_int_round (int_to_fp n) = n` for
`|n| < 2^17`, the extremes `n = 2^17 - 1` and `n = -(2^17 - 1)` included. -/
theorem fp_to_int_round_int_to_fp (n : Int) (h : |n| < 131072) :
    fp_to_int_round (int_to_fp n) = n := by
  have hb := abs_lt.mp h
  rw [int_to_fp_of_small (by omega) (by omega)]
  by_cases h0 : 0 ≤ n
  · rw [fp_to_int_round_of_nonneg (by omega) (by omega)]
    omega
  · rw [fp_to_int_round_of_neg (by omega) (by omega)]
    omega

theorem fp_to_int_round_int_to_fp_witness :
    |(131071 : Int)| < 131072 ∧ fp_to_int_round (int_to_fp 131071) = 131071 :=
  ⟨by decide, fp_to_int_round_int_to_fp 131071 (by decide)⟩

/-- C8: half-unit ties round away from zero: for `0 ≤ n < 2^17 - 1`,
`fp_to_int_round (int_to_fp n + 8192) = n + 1` and
`fp_to_int_round (-int_to_fp n - 8192) = -(n + 1)`; at `n = 3` these are
`3.5 ↦ 4` and `-3.5 ↦ -4`. -/
theorem fp_to_int_round_half (n : Int) (h0 : 0 ≤ n) (h1 : n < 131071) :
    fp_to_int_round (int_to_fp n + 8192) = n + 1 ∧
      fp_to_int_round (-int_to_fp n - 8192) = -(n + 1) ∧
      fp_to_int_round (49152 + 8192) = 4 ∧ fp_to_int_round (-49152 - 8192) = -4 := by
  rw [int_to_fp_of_small (by omega) (by omega)]
  refine ⟨?_, ?_, by decide, by decide⟩
  · rw [fp_to_int_round_of_nonneg (by omega) (by omega)]
    omega
  · rw [fp_to_int_round_of_neg (by omega) (by omega)]
    omega

theorem fp_to_int_round_half_witness :
    (0 : Int) ≤ 131070 ∧ (131070 : Int) < 131071 ∧
      fp_to_int_round (int_to_fp 131070 + 8192) = 131070 + 1 ∧
      fp_to_int_round (-int_to_fp 131070 - 8192) = -(131070 + 1) ∧
      fp_to_int_round (49152 + 8192) = 4 ∧ fp_to_int_round (-49152 - 8192) = -4 :=
  ⟨by decide, by decide, fp_to_int_round_half 131070 (by decide) (by decide)⟩

/-! ## Arithmetic on integer-valued operands -/

/-- Truncating division is unchanged by a common positive factor. -/
theorem tdiv_mul_right_cancel (a b k : Int) (hk : 0 < k) :
    Int.tdiv (a * k) (b * k) = Int.tdiv a b := by
  obtain ⟨m, hm | hm⟩ := Int.eq_nat_or_neg a <;>
    obtain ⟨d, hd | hd⟩ := Int.eq_nat_or_neg b <;> subst hm <;> subst hd
  · rw [Int.tdiv_eq_ediv (by positivity) (by positivity),
      Int.tdiv_eq_ediv (by positivity) (by positivity)]
    exact Int.mul_ediv_mul_of_pos_left _ _ hk
  · rw [neg_mul, Int.tdiv_neg, Int.tdiv_neg,
      Int.tdiv_eq_ediv (by positivity) (by positivity),
      Int.tdiv_eq_ediv (by positivity) (by positivity),
      Int.mul_ediv_mul_of_pos_left _ _ hk]
  · rw [neg_mul, Int.neg_tdiv, Int.neg_tdiv,
      Int.tdiv_eq_ediv (by positivity) (by positivity),
      Int.tdiv_eq_ediv (by positivity) (by positivity),
      Int.mul_ediv_mul_of_pos_left _ _ hk]
  · rw [neg_mul, neg_mul, Int.neg_tdiv, Int.tdiv_neg, Int.neg_tdiv, Int.tdiv_neg,
      Int.tdiv_eq_ediv (by positivity) (by positivity),
      Int.tdiv_eq_ediv (by positivity) (by positivity),
      Int.mul_ediv_mul_of_pos_left _ _ hk]

/-- Two truncating divisions in a row, on natural numbers. -/
theorem tdiv_tdiv_natCast (m d k : Nat) :
    Int.tdiv (Int.tdiv (m : Int) (d : Int)) (k : Int)
      = Int.tdiv (m : Int) ((d : Int) * (k : Int)) := by
  rw [← Int.ofNat_tdiv, ← Int.ofNat_tdiv, ← Nat.cast_mul, ← Int.ofNat_tdiv,
    Nat.div_div_eq_div_mul]

/-- Two truncating divisions in a row divide by the product. -/
theorem tdiv_tdiv_eq (a b k : Int) (hk : 0 ≤ k) :
    Int.tdiv (Int.tdiv a b) k = Int.tdiv a (b * k) := by
  obtain ⟨c, hc⟩ := Int.eq_ofNat_of_zero_le hk
  subst hc
  obtain ⟨m, hm | hm⟩ := Int.eq_nat_or_neg a <;>
    obtain ⟨d, hd | hd⟩ := Int.eq_nat_or_neg b <;> subst hm <;> subst hd
  · exact tdiv_tdiv_natCast m d c
  · rw [neg_mul, Int.tdiv_neg, Int.tdiv_neg, Int.neg_tdiv, tdiv_tdiv_natCast]
  · rw [Int.neg_tdiv, Int.neg_tdiv, Int.neg_tdiv, tdiv_tdiv_natCast]
  · rw [Int.neg_tdiv_neg, neg_mul, Int.neg_tdiv_neg, tdiv_tdiv_natCast]

/-- A truncated quotient is no larger in magnitude than its dividend. -/
theorem natAbs_tdiv_le (a b : Int) : (Int.tdiv a b).natAbs ≤ a.natAbs := by
  rw [Int.natAbs_tdiv]
  exact Nat.div_le_self _ _

/-- C9: multiplication of integer-valued fixed-point numbers is exact: for
`|a| < 2^17`, `|b| < 2^17` and `|a*b| < 2^17`,
`mult_fp (int_to_fp a) (int_to_fp b) = int_to_fp (a*b)`; for `a = 2`, `b = 3`
the result is `int_to_fp 6`. -/
theorem mult_fp_int_to_fp (a b : Int) (ha : |a| < 131072) (hb : |b| < 131072)
    (hab : |a * b| < 131072) :
    mult_fp (int_to_fp a) (int_to_fp b) = int_to_fp (a * b) ∧
      mult_fp (int_to_fp 2) (int_to_fp 3) = int_to_fp 6 := by
  refine ⟨?_, by decide⟩
  have ha2 := abs_lt.mp ha
  have hb2 := abs_lt.mp hb
  have hab2 := abs_lt.mp hab
  rw [int_to_fp_of_small (show -131072 ≤ a by omega) (by omega),
    int_to_fp_of_small (show -131072 ≤ b by omega) (by omega),
    int_to_fp_of_small (show -131072 ≤ a * b by omega) (by omega)]
  have h64 : isInt64 (a * 16384 * (b * 16384)) :=
    isInt64_mul ⟨by omega, by omega⟩ ⟨by omega, by omega⟩
  have he : a * 16384 * (b * 16384) = a * b * 16384 * 16384 := by ring
  unfold mult_fp
  rw [wrap64_of_isInt64 h64, f_eq, he, Int.mul_tdiv_cancel _ (by decide)]
  exact wrap32_of_isInt32 ⟨by omega, by omega⟩

theorem mult_fp_int_to_fp_witness :
    |(-362 : Int)| < 131072 ∧ |(362 : Int)| < 131072 ∧ |(-362 : Int) * 362| < 131072 ∧
      mult_fp (int_to_fp (-362)) (int_to_fp 362) = int_to_fp (-362 * 362) ∧
      mult_fp (int_to_fp 2) (int_to_fp 3) = int_to_fp 6 :=
  ⟨by decide, by decide, by decide,
    mult_fp_int_to_fp (-362) 362 (by decide) (by decide) (by decide)⟩

/-- C10: division of integer-valued fixed-point numbers yields the truncated
integer quotient after narrowing: for `|a| < 2^17` and `0 < |b| < 2^17`,
`div_fp (int_to_fp a) (int_to_fp b)` has a result and its `fp_to_int` is
`a/b` truncated toward zero; for `a = 10`, `b = 4` the raw result is `40960`
and its `fp_to_int` is `2`. -/
theorem fp_to_int_div_fp_int_to_fp (a b : Int) (ha : |a| < 131072) (hb0 : 0 < |b|)
    (hb : |b| < 131072) :
    (div_fp (int_to_fp a) (int_to_fp b)).map fp_to_int = some (Int.tdiv a b) ∧
      div_fp (int_to_fp 10) (int_to_fp 4) = some 40960 ∧ fp_to_int 40960 = 2 := by
  refine ⟨?_, by decide, by decide⟩
  have ha2 := abs_lt.mp ha
  have hb2 := abs_lt.mp hb
  have hbne : b ≠ 0 := abs_pos.mp hb0
  rw [int_to_fp_of_small (show -131072 ≤ a by omega) (by omega),
    int_to_fp_of_small (show -131072 ≤ b by omega) (by omega)]
  have hq : Int.tdiv (a * 16384 * 16384) (b * 16384) = Int.tdiv (a * 16384) b :=
    tdiv_mul_right_cancel (a * 16384) b 16384 (by decide)
  have hq32 : isInt32 (Int.tdiv (a * 16384) b) := by
    have hle := natAbs_tdiv_le (a * 16384) b
    unfold isInt32
    omega
  have hd : div_fp (a * 16384) (b * 16384)
      = some (Int.tdiv (a * 16384 * 16384) (b * 16384)) :=
    div_fp_of_isInt32 ⟨by omega, by omega⟩ (by omega) (by rw [hq]; exact hq32)
  rw [hd, hq, Option.map_some']
  unfold fp_to_int
  rw [f_eq, tdiv_tdiv_eq _ _ _ (by decide), tdiv_mul_right_cancel _ _ _ (by decide)]

theorem fp_to_int_div_fp_int_to_fp_witness :
    |(-131071 : Int)| < 131072 ∧ 0 < |(7 : Int)| ∧ |(7 : Int)| < 131072 ∧
      (div_fp (int_to_fp (-131071)) (int_to_fp 7)).map fp_to_int
        = some (Int.tdiv (-131071) 7) ∧
      div_fp (int_to_fp 10) (int_to_fp 4) = some 40960 ∧ fp_to_int 40960 = 2 :=
  ⟨by decide, by decide, by decide,
    fp_to_int_div_fp_int_to_fp (-131071) 7 (by decide) (by decide) (by decide)⟩

/-- The product of two promoted integers whose integer product is small. -/
theorem mult_fp_scaled {a b : Int} (ha : -131072 ≤ a ∧ a ≤ 131071)
    (hb : -131072 ≤ b ∧ b ≤ 131071) (hab : -131072 ≤ a * b ∧ a * b ≤ 131071) :
    mult_fp (a * 16384) (b * 16384) = a * b * 16384 := by
  have h64 : isInt64 (a * 16384 * (b * 16384)) :=
    isInt64_mul ⟨by omega, by omega⟩ ⟨by omega, by omega⟩
  have he : a * 16384 * (b * 16384) = a * b * 16384 * 16384 := by ring
  unfold mult_fp
  rw [wrap64_of_isInt64 h64, f_eq, he, Int.mul_tdiv_cancel _ (by decide)]
  exact wrap32_of_isInt32 ⟨by omega, by omega⟩

/-- C11: division undoes multiplication on integer-valued operands: for
`b ≠ 0`, `|a| < 2^17`, `|b| < 2^17` and `|a*b| < 2^17`,
`div_fp (mult_fp (int_to_fp a) (int_to_fp b)) (int_to_fp b)` has a result and
its `fp_to_int` is `a`; for `a = 6`, `b = 7` the result is `6`. -/
theorem fp_to_int_div_fp_mult_fp (a b : Int) (hb0 : b ≠ 0) (ha : |a| < 131072)
    (hb : |b| < 131072) (hab : |a * b| < 131072) :
    (div_fp (mult_fp (int_to_fp a) (int_to_fp b)) (int_to_fp b)).map fp_to_int = some a ∧
      (div_fp (mult_fp (int_to_fp 6) (int_to_fp 7)) (int_to_fp 7)).map fp_to_int
        = some 6 := by
  refine ⟨?_, by decide⟩
  have ha2 := abs_lt.mp ha
  have hb2 := abs_lt.mp hb
  have hab2 := abs_lt.mp hab
  rw [int_to_fp_of_small (show -131072 ≤ a by omega) (by omega),
    int_to_fp_of_small (show -131072 ≤ b by omega) (by omega),
    mult_fp_scaled ⟨by omega, by omega⟩ ⟨by omega, by omega⟩ ⟨by omega, by omega⟩]
  have hq : Int.tdiv (a * b * 16384 * 16384) (b * 16384) = a * 16384 := by
    rw [tdiv_mul_right_cancel (a * b * 16384) b 16384 (by decide)]
    have he : a * b * 16384 = a * 16384 * b := by ring
    rw [he]
    exact Int.mul_tdiv_cancel _ hb0
  have hd : div_fp (a * b * 16384) (b * 16384)
      = some (Int.tdiv (a * b * 16384 * 16384) (b * 16384)) :=
    div_fp_of_isInt32 ⟨by omega, by omega⟩ (by omega)
      (by rw [hq]; exact ⟨by omega, by omega⟩)
  rw [hd, hq, Option.map_some']
  unfold fp_to_int
  rw [f_eq, Int.mul_tdiv_cancel _ (by decide)]

theorem fp_to_int_div_fp_mult_fp_witness :
    (-3 : Int) ≠ 0 ∧ |(43690 : Int)| < 131072 ∧ |(-3 : Int)| < 131072 ∧
      |(43690 : Int) * (-3)| < 131072 ∧
      (div_fp (mult_fp (int_to_fp 43690) (int_to_fp (-3))) (int_to_fp (-3))).map fp_to_int
        = some 43690 :=
  ⟨by decide, by decide, by decide, by decide,
    (fp_to_int_div_fp_mult_fp 43690 (-3) (by decide) (by decide) (by decide)
      (by decide)).1⟩

/-- C12: multiplicative identity: for every signed 32-bit `x`, over the full
range, `mult_fp x (int_to_fp 1) = x`. -/
theorem mult_fp_one (x : Int) (hx : isInt32 x) : mult_fp x (int_to_fp 1) = x := by
  have h1 : int_to_fp 1 = 16384 := by decide
  unfold mult_fp
  rw [h1, wrap64_of_isInt64 (isInt64_mul_scale hx), f_eq,
    Int.mul_tdiv_cancel _ (by decide)]
  exact wrap32_of_isInt32 hx

theorem mult_fp_one_witness :
    isInt32 (-2147483648) ∧ mult_fp (-2147483648) (int_to_fp 1) = -2147483648 :=
  ⟨by decide, mult_fp_one (-2147483648) (by decide)⟩

/-! ## Mixed operations -/

/-- C13: mixed addition agrees with promoting the integer first: for signed
32-bit `x` and `n` for which `n*16384` and `x + n*16384` stay within 32 bits,
`add_mixed x n = add_fp x (int_to_fp n) = x + n*16384`. -/
theorem add_mixed_eq_add_fp (x n : Int) (_hx : isInt32 x) (_hn : isInt32 n)
    (h1 : isInt32 (n * 16384)) (h2 : isInt32 (x + n * 16384)) :
    add_mixed x n = add_fp x (int_to_fp n) ∧ add_fp x (int_to_fp n) = x + n * 16384 := by
  refine ⟨rfl, ?_⟩
  unfold add_fp int_to_fp
  rw [f_eq, wrap32_of_isInt32 h1, wrap32_of_isInt32 h2]

theorem add_mixed_eq_add_fp_witness :
    isInt32 (-8192) ∧ isInt32 131071 ∧ isInt32 (131071 * 16384) ∧
      isInt32 (-8192 + 131071 * 16384) ∧
      add_mixed (-8192) 131071 = add_fp (-8192) (int_to_fp 131071) ∧
      add_fp (-8192) (int_to_fp 131071) = -8192 + 131071 * 16384 :=
  ⟨by decide, by decide, by decide, by decide,
    add_mixed_eq_add_fp (-8192) 131071 (by decide) (by decide) (by decide) (by decide)⟩

/-- C14: mixed multiplication needs no rescaling: for signed 32-bit `x` and
`-2^17 ≤ n ≤ 2^17 - 1` such that `x*n` fits in a signed 32-bit integer,
`mult_mixed x n = mult_fp x (int_to_fp n) = x*n`. -/
theorem mult_mixed_eq_mult_fp (x n : Int) (hx : isInt32 x) (hlo : -131072 ≤ n)
    (hhi : n ≤ 131071) (hxn : isInt32 (x * n)) :
    mult_mixed x n = mult_fp x (int_to_fp n) ∧ mult_fp x (int_to_fp n) = x * n := by
  have hm : mult_fp x (int_to_fp n) = x * n := by
    rw [int_to_fp_of_small hlo hhi]
    have h64 : isInt64 (x * (n * 16384)) := isInt64_mul hx ⟨by omega, by omega⟩
    have he : x * (n * 16384) = x * n * 16384 := by ring
    unfold mult_fp
    rw [wrap64_of_isInt64 h64, f_eq, he, Int.mul_tdiv_cancel _ (by decide)]
    exact wrap32_of_isInt32 hxn
  refine ⟨?_, hm⟩
  rw [hm]
  unfold mult_mixed
  exact wrap32_of_isInt32 hxn

theorem mult_mixed_eq_mult_fp_witness :
    isInt32 (-16383) ∧ (-131072 ≤ (131071 : Int)) ∧ ((131071 : Int) ≤ 131071) ∧
      isInt32 (-16383 * 131071) ∧
      mult_mixed (-16383) 131071 = mult_fp (-16383) (int_to_fp 131071) ∧
      mult_fp (-16383) (int_to_fp 131071) = -16383 * 131071 :=
  ⟨by decide, by decide, by decide, by decide,
    mult_mixed_eq_mult_fp (-16383) 131071 (by decide) (by decide) (by decide) (by decide)⟩

/-- The quotient of `div_mixed` is an `int` away from the pair `INT_MIN / -1`. -/
theorem isInt32_tdiv {x n : Int} (hx : isInt32 x) (hn0 : n ≠ 0)
    (hov : ¬ (x = -2147483648 ∧ n = -1)) : isInt32 (Int.tdiv x n) := by
  unfold isInt32 at hx ⊢
  by_cases hp : n = 1
  · subst hp
    rw [Int.tdiv_one]
    exact hx
  by_cases hm : n = -1
  · subst hm
    rw [Int.tdiv_neg, Int.tdiv_one]
    omega
  have h2 : 2 ≤ n.natAbs := by omega
  have hq : (Int.tdiv x n).natAbs = x.natAbs / n.natAbs := Int.natAbs_tdiv x n
  have hle : x.natAbs / n.natAbs ≤ x.natAbs / 2 := Nat.div_le_div_left h2 (by decide)
  omega

/-- What `sub_fp` returns when the difference stays within 32 bits. -/
theorem sub_fp_of_isInt32 {x y : Int} (h : isInt32 (x - y)) : sub_fp x y = x - y := by
  unfold sub_fp
  exact wrap32_of_isInt32 h

/-- C15 (as the code has it): `sub_fp x y` subtracts `y` from `x`: for signed
32-bit `x` and `y` whose difference stays within 32 bits, `sub_fp x y` returns
`x - y`. -/
theorem sub_fp_eq_sub (x y : Int) (_hx : isInt32 x) (_hy : isInt32 y)
    (h : isInt32 (x - y)) : sub_fp x y = x - y :=
  sub_fp_of_isInt32 h

theorem sub_fp_eq_sub_witness :
    isInt32 (-2147483648) ∧ isInt32 (-1) ∧ isInt32 (-2147483648 - (-1)) ∧
      sub_fp (-2147483648) (-1) = -2147483648 - (-1) :=
  ⟨by decide, by decide, by decide,
    sub_fp_eq_sub (-2147483648) (-1) (by decide) (by decide) (by decide)⟩

/-- C15 (as stated) fails at `x = 1`, `y = 3`, whose difference does not
overflow in either order: the body `x-y` returns `-2`, where `y - x` is `2`. -/
theorem sub_fp_operand_order :
    isInt32 1 ∧ isInt32 3 ∧ isInt32 (3 - 1) ∧ isInt32 (1 - 3) ∧
      sub_fp 1 3 = -2 ∧ sub_fp 1 3 ≠ 3 - 1 := by
  decide

/-- C16: additive identity: for every signed 32-bit `x`,
`add_fp x (int_to_fp 0) = x`. -/
theorem add_fp_zero (x : Int) (hx : isInt32 x) : add_fp x (int_to_fp 0) = x := by
  have h0 : int_to_fp 0 = 0 := by decide
  unfold add_fp
  rw [h0, add_zero]
  exact wrap32_of_isInt32 hx

theorem add_fp_zero_witness :
    isInt32 2147483647 ∧ add_fp 2147483647 (int_to_fp 0) = 2147483647 :=
  ⟨by decide, add_fp_zero 2147483647 (by decide)⟩

/-- C17: additive inverse: for every signed 32-bit `x`,
`sub_fp x x = int_to_fp 0`. -/
theorem sub_fp_self (x : Int) (_hx : isInt32 x) : sub_fp x x = int_to_fp 0 := by
  have h0 : int_to_fp 0 = 0 := by decide
  unfold sub_fp
  rw [h0, sub_self]
  decide

theorem sub_fp_self_witness :
    isInt32 (-2147483648) ∧ sub_fp (-2147483648) (-2147483648) = int_to_fp 0 :=
  ⟨by decide, sub_fp_self (-2147483648) (by decide)⟩

/-- C18: the 64-bit widening in `mult_fp` is necessary: there are integers
`a`, `b` with `|a|`, `|b|` and `|a*b|` below `2^17` on which the native-width
variant differs from `mult_fp`; at `a = b = 3` the 32-bit product of `49152`
with itself wraps and the variant returns `-114688`, where `mult_fp` returns
`147456 = int_to_fp 9`. -/
theorem mult_fp_native_differs :
    (∃ a b : Int, |a| < 131072 ∧ |b| < 131072 ∧ |a * b| < 131072 ∧
        mult_fp_native (int_to_fp a) (int_to_fp b) ≠ mult_fp (int_to_fp a) (int_to_fp b)) ∧
      mult_fp_native (int_to_fp 3) (int_to_fp 3) = -114688 ∧
      mult_fp (int_to_fp 3) (int_to_fp 3) = 147456 ∧ int_to_fp 9 = 147456 := by
  refine ⟨⟨3, 3, by decide, by decide, by decide, by decide⟩, by decide, by decide,
    by decide⟩

/-- C19: for a signed 32-bit `x` with `-2^31 + 8192 ≤ x ≤ 2^31 - 1 - 8192`,
`fp_to_int_round x = sign x * floor ((|x| + 8192) / 16384)`, the
round-half-away-from-zero of `x/16384`. -/
theorem fp_to_int_round_eq_sign_mul (x : Int)
    (hlo : -2147483648 + 8192 ≤ x) (hhi : x ≤ 2147483647 - 8192) :
    fp_to_int_round x = Int.sign x * ((|x| + 8192) / 16384) := by
  rcases lt_trichotomy x 0 with hneg | hz | hpos
  · rw [fp_to_int_round_of_neg hneg (by omega), Int.sign_eq_neg_one_of_neg hneg,
      abs_of_neg hneg]
    omega
  · subst hz
    decide
  · rw [fp_to_int_round_of_nonneg hpos.le (by omega), Int.sign_eq_one_of_pos hpos,
      abs_of_pos hpos]
    omega

theorem fp_to_int_round_eq_sign_mul_witness :
    (-2147483648 + 8192 ≤ (-2147475456 : Int)) ∧
      ((-2147475456 : Int) ≤ 2147483647 - 8192) ∧
      fp_to_int_round (-2147475456)
        = Int.sign (-2147475456) * ((|(-2147475456 : Int)| + 8192) / 16384) :=
  ⟨by decide, by decide, fp_to_int_round_eq_sign_mul (-2147475456) (by decide) (by decide)⟩

/-- C20: mixed division agrees with promoting the divisor first: for a signed
32-bit `x` and `n ≠ 0` with `-2^17 ≤ n ≤ 2^17 - 1`, other than the pair
`x = -2^31`, `n = -1`, both `div_mixed x n` and `div_fp x (int_to_fp n)` have
a result and it is `x/n` truncated toward zero. -/
theorem div_mixed_eq_div_fp (x n : Int) (hx : isInt32 x) (hn0 : n ≠ 0)
    (hlo : -131072 ≤ n) (hhi : n ≤ 131071) (hov : ¬ (x = -2147483648 ∧ n = -1)) :
    div_mixed x n = div_fp x (int_to_fp n) ∧ div_mixed x n = some (Int.tdiv x n) := by
  have hq : Int.tdiv (x * 16384) (n * 16384) = Int.tdiv x n :=
    tdiv_mul_right_cancel x n 16384 (by decide)
  have hq32 : isInt32 (Int.tdiv x n) := isInt32_tdiv hx hn0 hov
  have hd : div_fp x (n * 16384) = some (Int.tdiv (x * 16384) (n * 16384)) :=
    div_fp_of_isInt32 hx (by omega) (by rw [hq]; exact hq32)
  have hm : div_mixed x n = some (Int.tdiv x n) := by
    unfold div_mixed sdiv
    rw [if_neg (show ¬ (n = 0 ∨ (x = -2147483648 ∧ n = -1)) by tauto)]
  rw [int_to_fp_of_small hlo hhi, hd, hq]
  exact ⟨hm, hm⟩

theorem div_mixed_eq_div_fp_witness :
    isInt32 (-2147483648) ∧ (-131072 : Int) ≠ 0 ∧ (-131072 ≤ (-131072 : Int)) ∧
      ((-131072 : Int) ≤ 131071) ∧
      ¬ ((-2147483648 : Int) = -2147483648 ∧ (-131072 : Int) = -1) ∧
      div_mixed (-2147483648) (-131072) = div_fp (-2147483648) (int_to_fp (-131072)) ∧
      div_mixed (-2147483648) (-131072) = some (Int.tdiv (-2147483648) (-131072)) :=
  ⟨by decide, by decide, by decide, by decide, by decide,
    div_mixed_eq_div_fp (-2147483648) (-131072) (by decide) (by decide) (by decide)
      (by decide) (by decide)⟩

end FixedPoint
